import Mathlib

/-!
Verification of the book-catalog service: an in-memory REST API (`server.js`)
and its React client (`BooksApp.jsx`).  The server keeps a single array of
book records; the four endpoints are modelled as pure functions from the
collection to a response paired with the next collection.  Ids are modelled
as integers: route parameters are compared with JavaScript loose equality
`b.id == id`, which for the numeric ids stored here coincides with numeric
equality, and a non-numeric parameter behaves like a number matching no
record.  `Date.now()` is an arbitrary natural-number timestamp supplied as
an explicit argument.
-/

/-- A book record `{ id, title, author }` as stored in the server's array. -/
structure Book where
  id : Int
  title : String
  author : String
deriving DecidableEq

/-- The initial in-memory collection `books` in `server.js`. -/
def initialBooks : List Book :=
  [⟨1, "The Hobbit", "J.R.R. Tolkien"⟩, ⟨2, "1984", "George Orwell"⟩]

/-- `GET /books`: responds with the full current collection. -/
def listBooks (books : List Book) : List Book := books

/-- `POST /books`: builds `{ id: Date.now(), title, author }`, pushes it onto the
array and responds 201 with the new record.  The observed timestamp is the
explicit argument `now`. -/
def createBook (now : Nat) (title author : String) (books : List Book) :
    (Nat × Book) × List Book :=
  let newBook : Book := ⟨(now : Int), title, author⟩
  ((201, newBook), books ++ [newBook])

/-- Response of `PUT /books/:id`: 200 with the updated record, or 404 with a
message body. -/
inductive UpdateResult where
  | ok (book : Book)
  | notFound (message : String)
deriving DecidableEq

/-- HTTP status carried by an update response. -/
def UpdateResult.status : UpdateResult → Nat
  | .ok _ => 200
  | .notFound _ => 404

/-- `PUT /books/:id`: `findIndex(b => b.id == id)`; if found, the slot is
overwritten with `{ id: Number(id), title, author }` and that record is
returned; otherwise 404 `{ message: "Book not found" }` and the array is left
alone. -/
def updateBook (id : Int) (title author : String) (books : List Book) :
    UpdateResult × List Book :=
  match books.findIdx? (fun b => b.id == id) with
  | some i => (UpdateResult.ok ⟨id, title, author⟩, books.set i ⟨id, title, author⟩)
  | none => (UpdateResult.notFound "Book not found", books)

/-- `DELETE /books/:id`: `books = books.filter(b => b.id != id)` and a fixed
confirmation message, with no existence check. -/
def deleteBook (id : Int) (books : List Book) : String × List Book :=
  ("Book deleted", books.filter (fun b => b.id != id))

/-- One externally triggered operation on the server; a create carries the
timestamp `Date.now()` happened to return. -/
inductive Op where
  | list
  | create (now : Nat) (title author : String)
  | update (id : Int) (title author : String)
  | delete (id : Int)
deriving DecidableEq

/-- Effect of one operation on the stored collection. -/
def applyOp (s : List Book) : Op → List Book
  | .list => s
  | .create now t a => (createBook now t a s).2
  | .update id t a => (updateBook id t a s).2
  | .delete id => (deleteBook id s).2

/-- Run a sequence of operations from a given collection state. -/
def runOps (s : List Book) : List Op → List Book
  | [] => s
  | op :: ops => runOps (applyOp s op) ops

/-- A collection state is reachable when some operation sequence produces it
from the initial two-book state. -/
def Reachable (s : List Book) : Prop := ∃ ops, runOps initialBooks ops = s

/-- Holds when every create in the run observes a timestamp that is not an id
already present in the collection at that moment. -/
def freshRun (s : List Book) : List Op → Bool
  | [] => true
  | op :: ops =>
    (match op with
     | .create now _ _ => !((s.map Book.id).contains (now : Int))
     | _ => true) && freshRun (applyOp s op) ops

/-!
Client model (`BooksApp.jsx`).  String operations used by the client —
`trim`, `toLowerCase`, `includes`, `localeCompare` — are embedded over the
character lists underlying Lean strings; for the ASCII data handled here
they agree with the JavaScript semantics (`localeCompare` on distinct ASCII
strings orders by code point).  `Array.prototype.sort` is a stable
comparison sort; it is embedded as a stable insertion sort driven by the
same comparator.
-/

/-- `String.prototype.trim`: drop whitespace from both ends. -/
def trimChars (s : List Char) : List Char :=
  ((s.dropWhile Char.isWhitespace).reverse.dropWhile Char.isWhitespace).reverse

/-- `String.prototype.toLowerCase` over the underlying characters. -/
def lowerChars (s : List Char) : List Char := s.map Char.toLower

/-- Does `needle` occur at the start of `hay`? -/
def leadsWith : List Char → List Char → Bool
  | [], _ => true
  | _ :: _, [] => false
  | a :: as, b :: bs => a == b && leadsWith as bs

/-- `String.prototype.includes`: does `needle` occur contiguously in `hay`? -/
def includesChars (hay needle : List Char) : Bool :=
  match hay with
  | [] => needle.isEmpty
  | _ :: t => leadsWith needle hay || includesChars t needle

/-- The predicate of the search filter in the `filtered` memo:
`b.title.toLowerCase().includes(q) || b.author.toLowerCase().includes(q)`. -/
def matchesQuery (q : List Char) (b : Book) : Bool :=
  includesChars (lowerChars b.title.data) q || includesChars (lowerChars b.author.data) q

/-- The filtering stage of the `filtered` memo: lower-case the trimmed query;
an empty query keeps everything, otherwise keep the records matching it. -/
def filterBooks (query : String) (books : List Book) : List Book :=
  let q := lowerChars (trimChars query.data)
  if q.isEmpty then books else books.filter (matchesQuery q)

/-- `localeCompare` as code-point comparison: negative, zero or positive. -/
def localeCompare (a b : String) : Int :=
  cmpChars a.data b.data
where
  cmpChars : List Char → List Char → Int
    | [], [] => 0
    | [], _ :: _ => -1
    | _ :: _, [] => 1
    | c :: cs, d :: ds => if c < d then -1 else if d < c then 1 else cmpChars cs ds

/-- The comparator of the `filtered` memo for a given sort field and
direction: titles / authors via `localeCompare`, otherwise the id
difference. -/
def bookCmp (fld dir : String) (a b : Book) : Int :=
  if fld = "title" then
    (if dir = "asc" then localeCompare a.title b.title else localeCompare b.title a.title)
  else if fld = "author" then
    (if dir = "asc" then localeCompare a.author b.author else localeCompare b.author a.author)
  else
    (if dir = "asc" then a.id - b.id else b.id - a.id)

/-- Insert into a sorted list, keeping the inserted element before the first
element it is not strictly after (stability of `Array.prototype.sort`). -/
def insertOrd (le : Book → Book → Bool) (x : Book) : List Book → List Book
  | [] => [x]
  | y :: ys => if le x y then x :: y :: ys else y :: insertOrd le x ys

/-- Stable comparison sort standing for `Array.prototype.sort`. -/
def sortWith (le : Book → Book → Bool) : List Book → List Book
  | [] => []
  | x :: xs => insertOrd le x (sortWith le xs)

/-- `String.prototype.split` with a single-character separator. -/
def splitChar (sep : Char) : List Char → List (List Char)
  | [] => [[]]
  | c :: rest =>
    let r := splitChar sep rest
    if c == sep then [] :: r
    else
      match r with
      | [] => [[c]]
      | h :: t => (c :: h) :: t

/-- The sorting stage of the `filtered` memo: `sortBy.split('-')` yields the
field and direction; an element `a` precedes `b` when the comparator is
non-positive.  A missing direction behaves like the empty string, as
`undefined === 'asc'` is false. -/
def sortBooks (sortBy : String) (arr : List Book) : List Book :=
  match splitChar '-' sortBy.data with
  | fld :: dir :: _ => sortWith (fun a b => bookCmp ⟨fld⟩ ⟨dir⟩ a b ≤ 0) arr
  | [fld] => sortWith (fun a b => bookCmp ⟨fld⟩ "" a b ≤ 0) arr
  | [] => sortWith (fun a b => bookCmp "" "" a b ≤ 0) arr

/-- The full `filtered` memo: filter by the query, then sort. -/
def filteredView (query sortBy : String) (books : List Book) : List Book :=
  sortBooks sortBy (filterBooks query books)

/-- A transient notification shown by the client. -/
structure Toast where
  type : String
  message : String
deriving DecidableEq

/-- The client state touched by the CRUD helpers: the local mirror `books`
and the current toast. -/
structure ClientState where
  books : List Book
  toast : Option Toast
deriving DecidableEq

/-- Outcome of a `fetch` as the client observes it: an `ok` response carrying
the parsed body, or a failure (non-ok response or thrown error) carrying the
error's message. -/
inductive FetchResult (α : Type) where
  | ok (value : α)
  | err (message : String)
deriving DecidableEq

/-- `err.message || fallback`: an empty message falls back to the default. -/
def toastMessage (m fallback : String) : String :=
  if m = "" then fallback else m

/-- `createBook` in the client: on success append the record from the
server's response and show a success toast; on failure show an error toast
and leave the mirror alone. -/
def createBookClient (resp : FetchResult Book) (st : ClientState) : ClientState :=
  match resp with
  | .ok created => { books := st.books ++ [created], toast := some ⟨"success", "Book added"⟩ }
  | .err m => { st with toast := some ⟨"error", toastMessage m "Failed to add"⟩ }

/-- `updateBook` in the client: on success replace every mirror record whose
id equals the id of the record in the server's response by that record. -/
def updateBookClient (resp : FetchResult Book) (st : ClientState) : ClientState :=
  match resp with
  | .ok updated =>
      { books := st.books.map (fun b => if b.id = updated.id then updated else b),
        toast := some ⟨"success", "Book updated"⟩ }
  | .err m => { st with toast := some ⟨"error", toastMessage m "Failed to update"⟩ }

/-- `removeBook` in the client: the server's response carries no record, so on
success the mirror drops the records with the requested id. -/
def removeBookClient (id : Int) (resp : FetchResult Unit) (st : ClientState) : ClientState :=
  match resp with
  | .ok _ =>
      { books := st.books.filter (fun b => b.id != id), toast := some ⟨"success", "Book deleted"⟩ }
  | .err m => { st with toast := some ⟨"error", toastMessage m "Failed to delete"⟩ }

/-- The form draft: the two text fields. -/
structure FormState where
  title : String
  author : String
deriving DecidableEq

/-- `String.prototype.trim` on a string. -/
def jsTrim (s : String) : String := ⟨trimChars s.data⟩

/-- `validateForm`: the title must be truthy with trimmed length at least 2,
the author truthy with trimmed length at least 3. -/
def validateForm (f : FormState) : Bool :=
  !(f.title = "" || (jsTrim f.title).length < 2) &&
  !(f.author = "" || (jsTrim f.author).length < 3)

/-- A request the form submission can issue. -/
inductive Request where
  | create (title author : String)
  | update (id : Int) (title author : String)
deriving DecidableEq

/-- The title carried by a request. -/
def Request.reqTitle : Request → String
  | .create t _ => t
  | .update _ t _ => t

/-- The author carried by a request. -/
def Request.reqAuthor : Request → String
  | .create _ a => a
  | .update _ _ a => a

/-- `submitForm`: return without a request when validation fails; otherwise
issue an update (when a book is being edited) or a create, with the payload
built from the trimmed fields. -/
def submitForm (editing : Option Book) (f : FormState) : Option Request :=
  if validateForm f then
    let payload := (jsTrim f.title, jsTrim f.author)
    some (match editing with
          | some b => .update b.id payload.1 payload.2
          | none => .create payload.1 payload.2)
  else none

/-! ### Helper lemmas -/

/-- When `findIdx?` returns an index, the element there satisfies the
predicate. -/
lemma findIdx?_some_sat {α : Type} {p : α → Bool} {l : List α} {i : Nat}
    (hfind : l.findIdx? p = some i) :
    ∃ x, l[i]? = some x ∧ p x = true := by
  have hopt := List.findIdx?_of_eq_some hfind
  cases hbi : l[i]? with
  | none => rw [hbi] at hopt; simp at hopt
  | some x => rw [hbi] at hopt; exact ⟨x, rfl, hopt⟩

/-- An update never changes the list of ids: when the id is found, the slot is
overwritten with a record carrying the very id that matched. -/
lemma updateBook_map_id (id : Int) (t a : String) (books : List Book) :
    ((updateBook id t a books).2).map Book.id = books.map Book.id := by
  unfold updateBook
  cases hfind : books.findIdx? (fun b => b.id == id) with
  | none => rfl
  | some i =>
    obtain ⟨bi, hbi, hp⟩ := findIdx?_some_sat hfind
    have hid : bi.id = id := by simpa using hp
    have hmi : (books.map Book.id)[i]? = some id := by
      rw [List.getElem?_map, hbi]; simp [hid]
    simp only [List.map_set]
    apply List.ext_getElem?
    intro j
    by_cases hj : i = j
    · subst hj
      rw [List.getElem?_set_self', hmi]
      rfl
    · rw [List.getElem?_set_ne hj]

/-- One operation preserves distinctness of ids as long as a create does not
observe a timestamp already stored: update rewrites a slot with the id that
matched, delete only removes records. -/
lemma applyOp_nodup (s : List Book) (op : Op)
    (hs : (s.map Book.id).Nodup)
    (hfresh : ∀ now t a, op = Op.create now t a → (now : Int) ∉ s.map Book.id) :
    ((applyOp s op).map Book.id).Nodup := by
  cases op with
  | list => exact hs
  | create now t a =>
    have hnotin := hfresh now t a rfl
    show ((s ++ [(⟨(now : Int), t, a⟩ : Book)]).map Book.id).Nodup
    rw [List.map_append]
    refine List.Nodup.append hs (by simp) ?_
    intro x hx hmem
    have hxeq : x = (now : Int) := by simpa using hmem
    subst hxeq
    exact hnotin hx
  | update id t a =>
    show (((updateBook id t a s).2).map Book.id).Nodup
    rw [updateBook_map_id]
    exact hs
  | delete id =>
    show ((s.filter (fun b => b.id != id)).map Book.id).Nodup
    exact List.Nodup.sublist (List.Sublist.map Book.id (List.filter_sublist s)) hs

/-- Distinctness of ids is maintained along any run whose creates all observe
fresh timestamps. -/
lemma runOps_nodup (ops : List Op) : ∀ s : List Book,
    (s.map Book.id).Nodup → freshRun s ops = true →
    ((runOps s ops).map Book.id).Nodup := by
  induction ops with
  | nil => intro s hs _; exact hs
  | cons op ops ih =>
    intro s hs hf
    simp only [freshRun, Bool.and_eq_true] at hf
    apply ih
    · apply applyOp_nodup s op hs
      intro now t a heq
      subst heq
      simpa using hf.1
    · exact hf.2

/-- Lower-casing does not move a whitespace character. -/
lemma toLower_of_isWhitespace {c : Char} (h : c.isWhitespace = true) : c.toLower = c := by
  simp only [Char.isWhitespace, Bool.or_eq_true, decide_eq_true_eq, beq_iff_eq] at h
  rcases h with ((h | h) | h) | h <;> subst h <;> decide

/-- A string whose lower-casing is "tolkien" contains no whitespace. -/
lemma query_no_ws {q : List Char} (h : q.map Char.toLower = "tolkien".data) :
    ∀ c ∈ q, c.isWhitespace = false := by
  intro c hc
  by_contra hcon
  rw [Bool.not_eq_false] at hcon
  have hlow : c.toLower ∈ "tolkien".data := h ▸ List.mem_map_of_mem Char.toLower hc
  rw [toLower_of_isWhitespace hcon] at hlow
  have hdata : ("tolkien".data) = ['t', 'o', 'l', 'k', 'i', 'e', 'n'] := rfl
  rw [hdata] at hlow
  simp only [List.mem_cons, List.not_mem_nil, or_false] at hlow
  rcases hlow with h1 | h1 | h1 | h1 | h1 | h1 | h1 <;> subst h1 <;>
    exact absurd hcon (by decide)

lemma dropWhile_eq_self_of_forall {α : Type} (p : α → Bool) (l : List α)
    (h : ∀ c ∈ l, p c = false) : l.dropWhile p = l := by
  cases l with
  | nil => rfl
  | cons x xs =>
    rw [List.dropWhile_cons]
    simp [h x (List.mem_cons_self x xs)]

/-- Trimming a string without whitespace is the identity. -/
lemma trimChars_eq_self {q : List Char} (h : ∀ c ∈ q, c.isWhitespace = false) :
    trimChars q = q := by
  unfold trimChars
  rw [dropWhile_eq_self_of_forall _ _ h,
    dropWhile_eq_self_of_forall _ _ (fun c hc => h c (List.mem_reverse.mp hc))]
  exact List.reverse_reverse q

/-- Filtering a list that holds exactly one copy of `x`, with `x` matching and
nothing else matching, yields `[x]`. -/
lemma filter_eq_single {α : Type} [DecidableEq α] (p : α → Bool) (x : α) :
    ∀ l : List α, p x = true → (∀ b ∈ l, b ≠ x → p b = false) → l.count x = 1 →
    l.filter p = [x] := by
  intro l
  induction l with
  | nil => intro _ _ hcount; simp at hcount
  | cons y ys ih =>
    intro hpx hother hcount
    by_cases hyx : y = x
    · subst hyx
      rw [List.count_cons_self] at hcount
      have hynot : y ∉ ys := List.count_eq_zero.mp (by omega)
      rw [List.filter_cons_of_pos hpx]
      have hnil : ys.filter p = [] := by
        rw [List.filter_eq_nil_iff]
        intro b hb
        have hbx : b ≠ y := fun hbe => hynot (hbe ▸ hb)
        simp [hother b (List.mem_cons_of_mem _ hb) hbx]
      rw [hnil]
    · have hpy : p y = false := hother y (List.mem_cons_self _ _) hyx
      rw [List.filter_cons_of_neg (by simp [hpy])]
      rw [List.count_cons_of_ne (fun hxy => hyx hxy.symm) ] at hcount
      exact ih hpx (fun b hb hbx => hother b (List.mem_cons_of_mem _ hb) hbx) hcount

/-! ### Claims -/

/-- C1 as stated is false: `Date.now()` is not guarded against collisions, so
two creates observing the same millisecond timestamp reach a state whose ids
are not pairwise distinct. -/
theorem id_unique_counterexample :
    ¬ (∀ s : List Book, Reachable s → (s.map Book.id).Nodup) := by
  intro hall
  have hreach : Reachable (runOps initialBooks [.create 5 "a" "b", .create 5 "c" "d"]) :=
    ⟨[.create 5 "a" "b", .create 5 "c" "d"], rfl⟩
  have hnd := hall _ hreach
  revert hnd
  decide

/-- C1 amended: along every operation sequence in which each create observes a
timestamp that is not an id already in the collection at that moment, every
reachable state has pairwise-distinct ids; update and delete never break
distinctness. -/
theorem id_unique_of_fresh_timestamps (ops : List Op)
    (hf : freshRun initialBooks ops = true) :
    ((runOps initialBooks ops).map Book.id).Nodup :=
  runOps_nodup ops initialBooks (by decide) hf

theorem id_unique_of_fresh_timestamps_witness :
    freshRun initialBooks [Op.create 5 "a" "b", Op.update 1 "t" "u", Op.delete 2] = true ∧
    ((runOps initialBooks
        [Op.create 5 "a" "b", Op.update 1 "t" "u", Op.delete 2]).map Book.id).Nodup :=
  ⟨by decide, id_unique_of_fresh_timestamps _ (by decide)⟩

/-- C2: an update whose id matches no stored record responds 404 with the
message "Book not found" and leaves the collection exactly as it was. -/
theorem update_missing_id_404 (books : List Book) (id : Int) (t a : String)
    (h : ∀ b ∈ books, b.id ≠ id) :
    updateBook id t a books = (UpdateResult.notFound "Book not found", books) ∧
    (updateBook id t a books).1.status = 404 := by
  have hnone : books.findIdx? (fun b => b.id == id) = none := by
    rw [List.findIdx?_eq_none_iff]
    intro x hx
    simpa using h x hx
  constructor
  · unfold updateBook; rw [hnone]
  · unfold updateBook; rw [hnone]; rfl

theorem update_missing_id_404_witness :
    (∀ b ∈ initialBooks, b.id ≠ 99) ∧
    (updateBook 99 "New Title" "New Author" initialBooks =
       (UpdateResult.notFound "Book not found", initialBooks) ∧
     (updateBook 99 "New Title" "New Author" initialBooks).1.status = 404) :=
  ⟨by decide, update_missing_id_404 initialBooks 99 "New Title" "New Author" (by decide)⟩

/-- C3: an update whose id matches a stored record overwrites the matching
slot with the record built from the URL id and the input title/author, returns
that record with status 200, and leaves the collection's length and every
other slot untouched. -/
theorem update_existing_replaces_in_place (books : List Book) (id : Int) (t a : String)
    (h : ∃ b ∈ books, b.id = id) :
    ∃ i : Nat,
      (∃ bi, books[i]? = some bi ∧ bi.id = id) ∧
      (updateBook id t a books).1 = UpdateResult.ok ⟨id, t, a⟩ ∧
      (updateBook id t a books).1.status = 200 ∧
      (updateBook id t a books).2 = books.set i ⟨id, t, a⟩ ∧
      (updateBook id t a books).2.length = books.length ∧
      ((updateBook id t a books).2)[i]? = some (⟨id, t, a⟩ : Book) ∧
      ∀ j : Nat, j ≠ i → ((updateBook id t a books).2)[j]? = books[j]? := by
  have hex : ∃ b, b ∈ books ∧ (fun b => b.id == id) b := by
    obtain ⟨b, hb, hid⟩ := h
    exact ⟨b, hb, by simpa using hid⟩
  have hfind := List.findIdx?_eq_some_of_exists hex
  obtain ⟨bi, hbi, hp⟩ := findIdx?_some_sat hfind
  have hlt : books.findIdx (fun b => b.id == id) < books.length :=
    List.findIdx_lt_length_of_exists hex
  refine ⟨books.findIdx (fun b => b.id == id), ⟨bi, hbi, by simpa using hp⟩, ?_, ?_, ?_, ?_, ?_, ?_⟩
  · unfold updateBook; rw [hfind]
  · unfold updateBook; rw [hfind]; rfl
  · unfold updateBook; rw [hfind]
  · unfold updateBook; rw [hfind]; simp
  · unfold updateBook; rw [hfind]; simp only
    exact List.getElem?_set_self hlt
  · intro j hj
    unfold updateBook; rw [hfind]; simp only
    exact List.getElem?_set_ne (Ne.symm hj)

theorem update_existing_replaces_in_place_witness :
    (∃ b ∈ initialBooks, b.id = 1) ∧
    ∃ i : Nat,
      (∃ bi, initialBooks[i]? = some bi ∧ bi.id = 1) ∧
      (updateBook 1 "Revised" "Tolkien" initialBooks).1 =
        UpdateResult.ok ⟨1, "Revised", "Tolkien"⟩ ∧
      (updateBook 1 "Revised" "Tolkien" initialBooks).1.status = 200 ∧
      (updateBook 1 "Revised" "Tolkien" initialBooks).2 =
        initialBooks.set i ⟨1, "Revised", "Tolkien"⟩ ∧
      (updateBook 1 "Revised" "Tolkien" initialBooks).2.length = initialBooks.length ∧
      ((updateBook 1 "Revised" "Tolkien" initialBooks).2)[i]? =
        some (⟨1, "Revised", "Tolkien"⟩ : Book) ∧
      ∀ j : Nat, j ≠ i →
        ((updateBook 1 "Revised" "Tolkien" initialBooks).2)[j]? = initialBooks[j]? :=
  ⟨⟨⟨1, "The Hobbit", "J.R.R. Tolkien"⟩, by decide, rfl⟩,
   update_existing_replaces_in_place initialBooks 1 "Revised" "Tolkien"
     ⟨⟨1, "The Hobbit", "J.R.R. Tolkien"⟩, by decide, rfl⟩⟩

/-- C4: delete always responds with the fixed confirmation message, and no
record carrying the deleted id survives into a subsequent list. -/
theorem delete_removes_id (books : List Book) (id : Int) :
    (deleteBook id books).1 = "Book deleted" ∧
    ∀ b ∈ listBooks (deleteBook id books).2, b.id ≠ id := by
  refine ⟨rfl, ?_⟩
  intro b hb
  simp only [listBooks, deleteBook, List.mem_filter, bne_iff_ne, ne_eq] at hb
  exact hb.2

/-- C5: the record returned by create is appended: a subsequent list returns
the previous collection with the new record as its last element. -/
theorem create_appends_record (now : Nat) (t a : String) (books : List Book) :
    listBooks (createBook now t a books).2 = books ++ [(createBook now t a books).1.2] ∧
    (createBook now t a books).1.2 ∈ listBooks (createBook now t a books).2 ∧
    (listBooks (createBook now t a books).2).getLast? = some (createBook now t a books).1.2 := by
  refine ⟨rfl, ?_, ?_⟩
  · simp [createBook, listBooks]
  · exact List.getLast?_concat books

/-- C6: a failed create/update/delete leaves the client's mirror untouched and
surfaces an error toast, while a successful one patches the mirror from the
record in the server's response (create appends it, update substitutes it by
id, delete drops the requested id). -/
theorem client_mutation_contract (st : ClientState) (m : String)
    (created updated : Book) (id : Int) :
    ((createBookClient (.err m) st).books = st.books ∧
      ∃ msg, (createBookClient (.err m) st).toast = some ⟨"error", msg⟩) ∧
    ((updateBookClient (.err m) st).books = st.books ∧
      ∃ msg, (updateBookClient (.err m) st).toast = some ⟨"error", msg⟩) ∧
    ((removeBookClient id (.err m) st).books = st.books ∧
      ∃ msg, (removeBookClient id (.err m) st).toast = some ⟨"error", msg⟩) ∧
    (createBookClient (.ok created) st).books = st.books ++ [created] ∧
    (updateBookClient (.ok updated) st).books =
      st.books.map (fun b => if b.id = updated.id then updated else b) ∧
    (removeBookClient id (.ok ()) st).books = st.books.filter (fun b => b.id != id) :=
  ⟨⟨rfl, ⟨_, rfl⟩⟩, ⟨rfl, ⟨_, rfl⟩⟩, ⟨rfl, ⟨_, rfl⟩⟩, rfl, rfl, rfl⟩

/-- C9: the form issues a request only when the trimmed title has length at
least 2 and the trimmed author length at least 3; the payload carries exactly
the trimmed fields, so no submitted request has an empty or whitespace-only
title or author. -/
theorem form_submits_only_validated (editing : Option Book) (f : FormState) (req : Request)
    (h : submitForm editing f = some req) :
    2 ≤ (jsTrim f.title).length ∧ 3 ≤ (jsTrim f.author).length ∧
    req.reqTitle = jsTrim f.title ∧ req.reqAuthor = jsTrim f.author ∧
    req.reqTitle ≠ "" ∧ req.reqAuthor ≠ "" := by
  have hv : validateForm f = true := by
    by_contra hv
    simp [submitForm, hv] at h
  have hb := hv
  simp only [validateForm, Bool.and_eq_true, Bool.not_eq_true', Bool.or_eq_false_iff,
    decide_eq_false_iff_not, not_lt] at hb
  obtain ⟨⟨-, ht⟩, -, ha⟩ := hb
  have htne : jsTrim f.title ≠ "" := by
    intro hemp
    rw [hemp] at ht
    simp at ht
  have hane : jsTrim f.author ≠ "" := by
    intro hemp
    rw [hemp] at ha
    simp at ha
  cases editing with
  | none =>
    have hreq : req = Request.create (jsTrim f.title) (jsTrim f.author) := by
      unfold submitForm at h
      rw [if_pos hv] at h
      exact (Option.some.inj h).symm
    subst hreq
    exact ⟨ht, ha, rfl, rfl, htne, hane⟩
  | some b =>
    have hreq : req = Request.update b.id (jsTrim f.title) (jsTrim f.author) := by
      unfold submitForm at h
      rw [if_pos hv] at h
      exact (Option.some.inj h).symm
    subst hreq
    exact ⟨ht, ha, rfl, rfl, htne, hane⟩

theorem form_submits_only_validated_witness :
    submitForm none ⟨" ab ", " xyz "⟩ = some (Request.create "ab" "xyz") ∧
    (2 ≤ (jsTrim (FormState.title ⟨" ab ", " xyz "⟩)).length ∧
     3 ≤ (jsTrim (FormState.author ⟨" ab ", " xyz "⟩)).length ∧
     (Request.create "ab" "xyz").reqTitle = jsTrim (FormState.title ⟨" ab ", " xyz "⟩) ∧
     (Request.create "ab" "xyz").reqAuthor = jsTrim (FormState.author ⟨" ab ", " xyz "⟩) ∧
     (Request.create "ab" "xyz").reqTitle ≠ "" ∧
     (Request.create "ab" "xyz").reqAuthor ≠ "") :=
  ⟨by decide,
   form_submits_only_validated none ⟨" ab ", " xyz "⟩ (Request.create "ab" "xyz") (by decide)⟩

/-- C10: delete keeps the survivors in their original relative order — the
result is a subsequence of the original — and contains exactly the original
occurrences of every record whose id differs from the deleted one. -/
theorem delete_preserves_order (books : List Book) (id : Int) :
    ((deleteBook id books).2).Sublist books ∧
    ∀ b : Book, ((deleteBook id books).2).count b =
      (if b.id = id then 0 else books.count b) := by
  constructor
  · exact List.filter_sublist books
  · intro b
    by_cases hb : b.id = id
    · simp only [deleteBook]
      rw [if_pos hb, List.count_eq_zero]
      intro hmem
      rw [List.mem_filter] at hmem
      simp [hb] at hmem
    · simp only [deleteBook, if_neg hb]
      exact List.count_filter (by simp [hb])

/-- C7: for every casing of the query "tolkien" — every string whose
lower-casing is "tolkien" — filtering a collection that holds exactly one copy
of the record titled "The Hobbit" by "J.R.R. Tolkien" and no other record
matching the query returns exactly that record. -/
theorem filter_tolkien_exact (q : String) (books : List Book) (hb : Book)
    (hqc : q.data.map Char.toLower = "tolkien".data)
    (htitle : hb.title = "The Hobbit") (hauthor : hb.author = "J.R.R. Tolkien")
    (hcount : books.count hb = 1)
    (hother : ∀ b ∈ books, b ≠ hb → matchesQuery ("tolkien".data) b = false) :
    filterBooks q books = [hb] := by
  have hnws : ∀ c ∈ q.data, c.isWhitespace = false := query_no_ws hqc
  have hlower : lowerChars (trimChars q.data) = "tolkien".data := by
    rw [trimChars_eq_self hnws]
    exact hqc
  show (if (lowerChars (trimChars q.data)).isEmpty then books
        else books.filter (matchesQuery (lowerChars (trimChars q.data)))) = [hb]
  rw [hlower]
  have hpx : matchesQuery ("tolkien".data) hb = true := by
    unfold matchesQuery
    rw [htitle, hauthor]
    decide
  simp only [List.isEmpty_cons, Bool.false_eq_true, if_false]
  exact filter_eq_single _ hb books hpx hother hcount

theorem filter_tolkien_exact_witness :
    ("ToLkIeN".data.map Char.toLower = "tolkien".data) ∧
    ((⟨1, "The Hobbit", "J.R.R. Tolkien"⟩ : Book).title = "The Hobbit") ∧
    ((⟨1, "The Hobbit", "J.R.R. Tolkien"⟩ : Book).author = "J.R.R. Tolkien") ∧
    (initialBooks.count ⟨1, "The Hobbit", "J.R.R. Tolkien"⟩ = 1) ∧
    (∀ b ∈ initialBooks, b ≠ ⟨1, "The Hobbit", "J.R.R. Tolkien"⟩ →
      matchesQuery ("tolkien".data) b = false) ∧
    filterBooks "ToLkIeN" initialBooks = [⟨1, "The Hobbit", "J.R.R. Tolkien"⟩] :=
  ⟨by decide, rfl, rfl, by decide, by decide,
   filter_tolkien_exact "ToLkIeN" initialBooks ⟨1, "The Hobbit", "J.R.R. Tolkien"⟩
     (by decide) rfl rfl (by decide) (by decide)⟩

/-- C8: sorting by title ascending places the record titled "1984" before the
record titled "The Hobbit" whatever the ids and authors of the two records
are, and the title comparator in either direction reads only the titles —
records with equal titles compare identically whatever their authors and
ids. -/
theorem sort_title_asc_orders_titles (id1 id2 : Int) (auth1 auth2 : String)
    (a b c d : Book) (hac : a.title = c.title) (hbd : b.title = d.title) :
    sortBooks "title-asc" [⟨id1, "The Hobbit", auth1⟩, ⟨id2, "1984", auth2⟩] =
      [⟨id2, "1984", auth2⟩, ⟨id1, "The Hobbit", auth1⟩] ∧
    bookCmp "title" "asc" a b = bookCmp "title" "asc" c d ∧
    bookCmp "title" "desc" a b = bookCmp "title" "desc" c d := by
  refine ⟨rfl, ?_, ?_⟩
  · simp [bookCmp, hac, hbd]
  · simp [bookCmp, hac, hbd]

theorem sort_title_asc_orders_titles_witness :
    ((⟨1, "T", "A"⟩ : Book).title = (⟨3, "T", "C"⟩ : Book).title) ∧
    ((⟨2, "U", "B"⟩ : Book).title = (⟨4, "U", "D"⟩ : Book).title) ∧
    (sortBooks "title-asc" [⟨7, "The Hobbit", "X"⟩, ⟨8, "1984", "Y"⟩] =
       [⟨8, "1984", "Y"⟩, ⟨7, "The Hobbit", "X"⟩] ∧
     bookCmp "title" "asc" ⟨1, "T", "A"⟩ ⟨2, "U", "B"⟩ =
       bookCmp "title" "asc" ⟨3, "T", "C"⟩ ⟨4, "U", "D"⟩ ∧
     bookCmp "title" "desc" ⟨1, "T", "A"⟩ ⟨2, "U", "B"⟩ =
       bookCmp "title" "desc" ⟨3, "T", "C"⟩ ⟨4, "U", "D"⟩) :=
  ⟨rfl, rfl,
   sort_title_asc_orders_titles 7 8 "X" "Y" ⟨1, "T", "A"⟩ ⟨2, "U", "B"⟩
     ⟨3, "T", "C"⟩ ⟨4, "U", "D"⟩ rfl rfl⟩
